import Mathlib

set_option maxHeartbeats 1000000
set_option maxRecDepth 100000

/-! Formal model of the slide-video generator in `main.py`.

Python strings are modelled as `List Char` (one entry per Unicode code point,
so `List.length` agrees with Python `len`); fallible external calls (network,
translation, text-to-speech) are abstracted as oracle arguments returning
`Except` or `Option`, with an exception modelled as the error case; float
arithmetic is modelled over `ℚ`. -/

/-- Whitespace predicate of Python's `str.strip()` with no arguments
(restricted to the ASCII whitespace characters). -/
def pyIsSpace (c : Char) : Bool :=
  c = ' ' || c = '\t' || c = '\n' || c = '\r' || c = '\x0b' || c = '\x0c'

/-- Python `str.lstrip()`: drop leading whitespace. -/
def pyLStrip (s : List Char) : List Char := s.dropWhile pyIsSpace

/-- Python `str.rstrip()`: drop trailing whitespace. -/
def pyRStrip (s : List Char) : List Char := (s.reverse.dropWhile pyIsSpace).reverse

/-- Python `str.strip()`: drop leading and trailing whitespace. -/
def pyStrip (s : List Char) : List Char := pyRStrip (pyLStrip s)

/-- The paragraph separator, Python's `"\n\n"`. -/
def nl2 : List Char := ['\n', '\n']

/-- Python `text.split("\n\n")`: split on non-overlapping occurrences of the
two-newline separator, scanning left to right; `cur` is the piece accumulated
so far. -/
def pySplit2 : List Char → List Char → List (List Char)
  | [], cur => [cur]
  | [c], cur => [cur ++ [c]]
  | c₁ :: c₂ :: rest, cur =>
    if c₁ = '\n' ∧ c₂ = '\n' then cur :: pySplit2 rest []
    else pySplit2 (c₂ :: rest) (cur ++ [c₁])

/-- Python `sep.join(pieces)`. -/
def pyJoin (sep : List Char) : List (List Char) → List Char
  | [] => []
  | [x] => x
  | x :: y :: t => x ++ sep ++ pyJoin sep (y :: t)

/-- Config constant MIN_SLIDE_CHARS of `main.py`. -/
def MIN_SLIDE_CHARS : Nat := 40

/-- Config constant SLIDE_BODY_CHAR_APPROX of `main.py`, the default
approx_chars of split_text_into_slides. -/
def SLIDE_BODY_CHAR_APPROX : Nat := 700

/-- A slide dict of split_text_into_slides: a `title` entry (None or a string)
and a `body` string. -/
structure Slide where
  title : Option (List Char)
  body : List Char
deriving DecidableEq

/-- Line 217 of `main.py`: the stripped, non-blank paragraphs of the input
text. -/
def parasOf (text : List Char) : List (List Char) :=
  ((pySplit2 text []).map pyStrip).filter (fun p => !p.isEmpty)

/-- The paragraph-accumulation loop of split_text_into_slides (lines 222-233):
`cur` holds the paragraphs of the chunk being built, in order, and `curLen`
mirrors the Python variable cur_len. -/
def chunkLoop (approx : Nat) : List (List Char) → List (List Char) → Nat → List Slide
  | [], cur, _ => if cur.isEmpty then [] else [⟨none, pyJoin nl2 cur⟩]
  | p :: rest, cur, curLen =>
    if curLen + p.length + 2 ≤ approx then
      chunkLoop approx rest (cur ++ [p]) (curLen + p.length + 2)
    else
      ⟨none, pyJoin nl2 cur⟩ :: chunkLoop approx rest [p] (p.length + 2)

/-- Python truthiness of a slide's title entry: None and the empty string are
falsy. -/
def titleFalsy : Option (List Char) → Bool
  | none => true
  | some t => t.isEmpty

/-- The short-slide merge pass of split_text_into_slides (lines 236-251);
`acc` holds the Python list `cleaned` in reverse, so that mutating the last
element of `cleaned` is replacing the head of `acc`. -/
def mergeLoop : List Slide → List Slide → List Slide
  | [], acc => acc.reverse
  | s :: rest, acc =>
    if (pyStrip s.body).length < MIN_SLIDE_CHARS then
      match acc with
      | prev :: accTail =>
        if titleFalsy prev.title then
          mergeLoop rest (⟨prev.title, pyStrip (prev.body ++ nl2 ++ pyStrip s.body)⟩ :: accTail)
        else
          mergeLoop rest (s :: prev :: accTail)
      | [] =>
        if (pyStrip s.body).isEmpty then mergeLoop rest [] else mergeLoop rest [s]
    else
      mergeLoop rest (s :: acc)

/-- One pass of split_text_into_slides (lines 214-252) at a fixed approx_chars:
the empty-text early return, paragraph split, title-card insertion, chunking
loop and short-slide merge pass, without the final slide-count cap. -/
def split_go (text : List Char) (title : Option (List Char)) (approx : Nat) : List Slide :=
  if text.isEmpty then []
  else
    mergeLoop
      ((if titleFalsy title then [] else [⟨title, []⟩]) ++ chunkLoop approx (parasOf text) [] 0)
      []

/-- split_text_into_slides (lines 214-256) with explicit recursion fuel: the
Python function re-enters itself with approx_chars set to 1200 whenever the
merge pass leaves more than 18 slides; `none` models the RecursionError raised
when the recursion never bottoms out. -/
def split_text_into_slidesFuel : Nat → List Char → Option (List Char) → Nat → Option (List Slide)
  | 0, _, _, _ => none
  | fuel + 1, text, title, approx =>
    if (split_go text title approx).length > 18 then
      split_text_into_slidesFuel fuel text title 1200
    else
      some (split_go text title approx)

/-- split_text_into_slides at its default approx_chars, with fuel matching
Python's default recursion limit. -/
def split_text_into_slides (text : List Char) (title : Option (List Char)) :
    Option (List Slide) :=
  split_text_into_slidesFuel 1000 text title SLIDE_BODY_CHAR_APPROX

/-- The call split_text_into_slides(text, title) never returns a value: every
amount of recursion fuel is exhausted (in Python, a RecursionError). -/
def splitDiverges (text : List Char) (title : Option (List Char)) : Prop :=
  ∀ fuel, split_text_into_slidesFuel fuel text title SLIDE_BODY_CHAR_APPROX = none

/-- Message carried by a raised Python exception. -/
abbrev PyErr := List Char

/-- The dict returned by get_trending_stock and get_market_analysis_data,
consumed by main. -/
structure TopicData where
  dtype : List Char
  title : List Char
  name : List Char
  script : List Char
  article_link : Option (List Char)
deriving DecidableEq

/-- Outcome of the topic-selection step of main: proceed to video production
with the chosen data, or exit the process with the given status code before
any video is produced. -/
inductive MainSelection where
  | proceed (d : TopicData)
  | abort (exitCode : Nat)
deriving DecidableEq

/-- Embeds the topic-selection step of main (lines 466-471). The two data
sources are abstracted as the values they return (`none` for Python None; the
dicts the sources build are never empty, so None is the only falsy result).
The Bool records whether get_market_analysis_data was invoked. sys.exit(1)
raises SystemExit, which `except Exception` does not catch, so the process
exits with status 1; no video has been produced at that point. -/
def mainSelect (trending fallback : Option TopicData) : Bool × MainSelection :=
  match trending with
  | some d => (false, MainSelection.proceed d)
  | none =>
    match fallback with
    | some d => (true, MainSelection.proceed d)
    | none => (true, MainSelection.abort 1)

/-- Round to the nearest integer, ties to even — the tie rule of Python's
builtin round. -/
def roundHalfEven (q : ℚ) : ℤ :=
  if q - ⌊q⌋ < 1/2 then ⌊q⌋
  else if 1/2 < q - ⌊q⌋ then ⌊q⌋ + 1
  else if ⌊q⌋ % 2 = 0 then ⌊q⌋ else ⌊q⌋ + 1

/-- Python round(x, 2). -/
def round2 (q : ℚ) : ℚ := (roundHalfEven (q * 100) : ℚ) / 100

/-- One entry of the `indices` list of get_market_analysis_data. -/
structure IndexInfo where
  ticker : List Char
  name : List Char
deriving DecidableEq

/-- A numpy float64 value as produced by the pct computation of
get_market_analysis_data: a finite value (modelled as a rational), a signed
infinity, or NaN. Dividing a numpy float64 by zero does not raise
ZeroDivisionError: it emits a RuntimeWarning and yields an infinity (or NaN
for 0/0). -/
inductive PyFloat where
  | finite (q : ℚ)
  | posInf
  | negInf
  | nan
deriving DecidableEq

/-- numpy float64 division of two finite values: an infinity or NaN instead
of an exception when the divisor is zero. -/
def pyDivFloat (a b : ℚ) : PyFloat :=
  if b = 0 then
    if a > 0 then PyFloat.posInf else if a < 0 then PyFloat.negInf else PyFloat.nan
  else PyFloat.finite (a / b)

/-- Multiplication of a numpy float64 by the positive literal 100. -/
def pyMul100 : PyFloat → PyFloat
  | PyFloat.finite q => PyFloat.finite (q * 100)
  | f => f

/-- Python round(x, 2) on a float64: infinities and NaN round to themselves. -/
def pyRound2 : PyFloat → PyFloat
  | PyFloat.finite q => PyFloat.finite (round2 q)
  | f => f

/-- Python abs on a float64. -/
def pyAbs : PyFloat → PyFloat
  | PyFloat.finite q => PyFloat.finite |q|
  | PyFloat.posInf => PyFloat.posInf
  | PyFloat.negInf => PyFloat.posInf
  | PyFloat.nan => PyFloat.nan

/-- The fields of the dict built by get_market_analysis_data that feed its
script string: the index name, the trend label, the reported percentage move
(a float64, infinite when the previous close is zero) and the latest close. -/
structure MarketAnalysis where
  name : List Char
  trend : List Char
  pct : PyFloat
  cur : ℚ
deriving DecidableEq

/-- The trend label for a positive change. -/
def bullish : List Char := "bullish".toList

/-- The trend label for a non-positive change. -/
def bearish : List Char := "bearish".toList

/-- Embeds get_market_analysis_data (lines 133-151). The randomly chosen index
is the `target` argument; the yfinance close history is abstracted as the list
of Close values, with `none` modelling an exception raised while fetching, and
the RuntimeError raised when fewer than 2 rows are present is caught by the
function's `except` clause and turns into a None result. The closes are numpy
float64 values, so `change/prev` at a zero previous close yields an infinity
or NaN with a RuntimeWarning rather than raising, and the function still
returns a dict in that case. -/
def get_market_analysis_data (target : IndexInfo) (histClose : Option (List ℚ)) :
    Option MarketAnalysis :=
  match histClose with
  | none => none
  | some closes =>
    if closes.length < 2 then none
    else
      let cur := closes.getD (closes.length - 1) 0
      let prev := closes.getD (closes.length - 2) 0
      let change := cur - prev
      some ⟨target.name, if change > 0 then bullish else bearish,
            pyAbs (pyRound2 (pyMul100 (pyDivFloat change prev))), cur⟩

/-- Embeds synthesize_text_to_file (lines 344-353). `translate` abstracts the
GoogleTranslator call with source auto and target te, `ttsSave` abstracts
constructing edge_tts.Communicate and awaiting its save; an `Except.error`
models a raised exception. Besides the Python function's Bool result, the
model returns the list of texts handed to speech synthesis, so theorems can
speak about which text was voiced. -/
def synthesize_text_to_file (translate : List Char → Except PyErr (List Char))
    (ttsSave : List Char → Except PyErr Unit) (text : List Char) :
    Bool × List (List Char) :=
  match translate text with
  | Except.error _ => (false, [])
  | Except.ok telugu =>
    match ttsSave telugu with
    | Except.error _ => (false, [telugu])
    | Except.ok _ => (true, [telugu])

/-- Config constant RESOLUTION of `main.py` in PORTRAIT mode. -/
def RESOLUTION : Nat × Nat := (1080, 1920)

/-- Config constant FALLBACK_IMAGES of `main.py`. -/
def FALLBACK_IMAGES : List (List Char) :=
  ["https://images.unsplash.com/photo-1611974789855-9c2a0a7236a3?q=80&w=1080&h=1920&fit=crop".toList,
   "https://images.unsplash.com/photo-1590283603385-17ffb3a7f29f?q=80&w=1080&h=1920&fit=crop".toList,
   "https://images.unsplash.com/photo-1535320903710-d9cf63d4040c?q=80&w=1080&h=1920&fit=crop".toList]

/-- An HTTP response as consulted by download_background: status code, the
Content-Type header (defaulted to the empty string when absent) and the body
bytes. -/
structure HttpResponse where
  status_code : Nat
  contentType : List Char
  content : List Nat
deriving DecidableEq

/-- What download_background wrote to its path argument: the bytes of a
fetched image, or a solid image of the given size and RGB colour. -/
inductive BgWritten where
  | fromUrl (content : List Nat)
  | solid (size : Nat × Nat) (r g b : Nat)
deriving DecidableEq

/-- The acceptance test of download_background, line 332: HTTP status 200 and
a Content-Type starting with image/. -/
def goodResp (r : HttpResponse) : Bool :=
  r.status_code == 200 && "image/".toList.isPrefixOf r.contentType

/-- The fallible external effects of download_background: the HTTP request
for a URL, the per-URL file write of the response bytes (open and write,
lines 333-334, inside the try), and the final img.save of the solid fallback
image (line 340, outside any try/except). An `Except.error` models a raised
exception. -/
structure DlOracles where
  fetch : List Char → Except PyErr HttpResponse
  writeFile : List Nat → Except PyErr Unit
  saveSolid : Except PyErr Unit

/-- One URL attempt of download_background fully succeeds: the request
returns, the response has status 200 and an image Content-Type, and writing
its bytes to the path does not raise. -/
def attemptSucceeds (o : DlOracles) (url : List Char) : Bool :=
  match o.fetch url with
  | Except.error _ => false
  | Except.ok r =>
    if goodResp r then
      match o.writeFile r.content with
      | Except.ok _ => true
      | Except.error _ => false
    else false

/-- The URL loop of download_background (lines 329-337): an exception during
the request or the file write is caught and the next URL is tried; when the
loop ends, the solid dark fallback image is saved (lines 339-341) — but that
img.save sits outside any try/except, so an exception it raises propagates
out of the function (`Except.error`). -/
def dlLoop (o : DlOracles) : List (List Char) → Except PyErr (Bool × BgWritten)
  | [] =>
    match o.saveSolid with
    | Except.ok _ => Except.ok (true, BgWritten.solid RESOLUTION 12 12 12)
    | Except.error e => Except.error e
  | url :: rest =>
    match o.fetch url with
    | Except.error _ => dlLoop o rest
    | Except.ok r =>
      if goodResp r then
        match o.writeFile r.content with
        | Except.ok _ => Except.ok (true, BgWritten.fromUrl r.content)
        | Except.error _ => dlLoop o rest
      else dlLoop o rest

/-- Embeds download_background (lines 328-341): `Except.ok (b, w)` means the
function returned `b` after the write described by `w`; `Except.error e`
means the uncaught exception `e` escaped from the final img.save. -/
def download_background (o : DlOracles) : Except PyErr (Bool × BgWritten) :=
  dlLoop o FALLBACK_IMAGES

/-- Config constant ZOOM_FACTOR of `main.py` (0.06). -/
def ZOOM_FACTOR : ℚ := 6/100

/-- The Ken-Burns zoom lambda of create_slide_clip, line 387: the resize scale
applied to the background at time `t` of a slide of the given duration. -/
def zoomScale (duration t : ℚ) : ℚ := 1 + ZOOM_FACTOR * (t / duration)

/-- Concrete input for the counterexample to the original claim C1. -/
def cxText : List Char := "The quick brown fox jumped over the lazy dog today.".toList

/-- Concrete title for the counterexample to the original claim C1. -/
def cxTitle : List Char := "Market News".toList

/-- A 599-character paragraph, used to build an input on which
split_text_into_slides never terminates. -/
def c4Para : List Char := List.replicate 599 'a'

/-- Nineteen 599-character paragraphs: each becomes its own chunk both at
approx_chars 700 and at approx_chars 1200, so the merge pass always leaves 19
slides and the slide-count cap re-enters the function forever. -/
def c4Text : List Char := pyJoin nl2 (List.replicate 19 c4Para)

/-- A 350-character paragraph used by concrete witnesses. -/
def wParaB : List Char := List.replicate 350 'b'

/-- Two 350-character paragraphs: at approx_chars 700 they land in two
separate chunks, giving a two-slide result. -/
def w2Text : List Char := pyJoin nl2 (List.replicate 2 wParaB)

/-- Concrete input text for the witness of claim C5. -/
def c5Text : List Char := "Stock markets in India closed sharply higher today.".toList

/-- Concrete input text for the witness of claim C6. -/
def c6Text : List Char := "Quarterly results beat analyst estimates by a wide margin.".toList

/-- Concrete input text for the witness of the amended claim C1. -/
def c1aText : List Char := "Shares of the company rose after the earnings report went public.".toList

/-! ### Basic facts about the Python string operations -/

theorem length_pyLStrip_le (s : List Char) : (pyLStrip s).length ≤ s.length :=
  (List.dropWhile_suffix pyIsSpace).length_le

theorem length_pyRStrip_le (s : List Char) : (pyRStrip s).length ≤ s.length := by
  unfold pyRStrip
  calc ((s.reverse.dropWhile pyIsSpace).reverse).length
      = (s.reverse.dropWhile pyIsSpace).length := List.length_reverse _
    _ ≤ s.reverse.length := (List.dropWhile_suffix pyIsSpace).length_le
    _ = s.length := List.length_reverse s

theorem length_pyStrip_le (s : List Char) : (pyStrip s).length ≤ s.length :=
  le_trans (length_pyRStrip_le _) (length_pyLStrip_le s)

theorem pyLStrip_eq_self_of_strip (a : List Char) (h : pyStrip a = a) : pyLStrip a = a := by
  have h1 : a.length ≤ (pyLStrip a).length := by
    calc a.length = (pyStrip a).length := by rw [h]
      _ ≤ (pyLStrip a).length := length_pyRStrip_le _
  exact (List.dropWhile_suffix pyIsSpace).eq_of_length
    (le_antisymm (length_pyLStrip_le a) h1)

theorem pyRStrip_eq_self_of_strip (a : List Char) (h : pyStrip a = a) : pyRStrip a = a := by
  have hl := pyLStrip_eq_self_of_strip a h
  unfold pyStrip at h
  rw [hl] at h
  exact h

theorem dropWhile_append_of_eq_self {α : Type} (p : α → Bool) (a x : List α)
    (ha : a.dropWhile p = a) (hne : a ≠ []) : (a ++ x).dropWhile p = a ++ x := by
  rw [List.dropWhile_append, ha]
  simp [List.isEmpty_iff, hne]

theorem pyLStrip_append (a x : List Char) (ha : pyLStrip a = a) (hne : a ≠ []) :
    pyLStrip (a ++ x) = a ++ x :=
  dropWhile_append_of_eq_self pyIsSpace a x ha hne

theorem pyRStrip_reverse_eq (b : List Char) (hb : pyRStrip b = b) :
    b.reverse.dropWhile pyIsSpace = b.reverse := by
  have := congrArg List.reverse hb
  rw [pyRStrip, List.reverse_reverse] at this
  exact this

theorem pyRStrip_append (x b : List Char) (hb : pyRStrip b = b) (hne : b ≠ []) :
    pyRStrip (x ++ b) = x ++ b := by
  unfold pyRStrip
  rw [List.reverse_append,
    dropWhile_append_of_eq_self pyIsSpace b.reverse x.reverse
      (pyRStrip_reverse_eq b hb) (by simpa using hne),
    List.reverse_append, List.reverse_reverse, List.reverse_reverse]

theorem pyRStrip_append_ws (a m : List Char) (hm : m.reverse.dropWhile pyIsSpace = []) :
    pyRStrip (a ++ m) = pyRStrip a := by
  unfold pyRStrip
  rw [List.reverse_append, List.dropWhile_append, hm]
  simp

theorem nl2_reverse_dropWhile : nl2.reverse.dropWhile pyIsSpace = [] := by decide

theorem pyLStrip_idem (s : List Char) : pyLStrip (pyLStrip s) = pyLStrip s :=
  List.dropWhile_idempotent pyIsSpace s

theorem pyRStrip_idem (s : List Char) : pyRStrip (pyRStrip s) = pyRStrip s := by
  unfold pyRStrip
  rw [List.reverse_reverse, List.dropWhile_idempotent]

theorem pyRStrip_prefix (s : List Char) : pyRStrip s <+: s := by
  have h : (pyRStrip s).reverse <:+ s.reverse := by
    unfold pyRStrip
    rw [List.reverse_reverse]
    exact List.dropWhile_suffix pyIsSpace
  exact List.reverse_suffix.mp h

theorem head_not_space_of_lstrip (c : Char) (t : List Char)
    (h : pyLStrip (c :: t) = c :: t) : pyIsSpace c = false := by
  by_contra hcs
  rw [Bool.not_eq_false] at hcs
  rw [pyLStrip, List.dropWhile_cons, if_pos hcs] at h
  have h1 := congrArg List.length h
  have h2 := (List.dropWhile_suffix (l := t) pyIsSpace).length_le
  simp at h1
  omega

theorem pyLStrip_pyRStrip (x : List Char) (hx : pyLStrip x = x) :
    pyLStrip (pyRStrip x) = pyRStrip x := by
  cases hr : pyRStrip x with
  | nil => rfl
  | cons c t =>
    obtain ⟨rest, hrest⟩ := pyRStrip_prefix x
    rw [hr] at hrest
    have hx' : pyLStrip (c :: (t ++ rest)) = c :: (t ++ rest) := by
      have hshape : (c :: t) ++ rest = c :: (t ++ rest) := rfl
      rw [← hshape, hrest]
      exact hx
    have hc' := head_not_space_of_lstrip c (t ++ rest) hx'
    simp [pyLStrip, List.dropWhile_cons, hc']

theorem pyStrip_idem (s : List Char) : pyStrip (pyStrip s) = pyStrip s := by
  unfold pyStrip
  rw [pyLStrip_pyRStrip (pyLStrip s) (pyLStrip_idem s), pyRStrip_idem]

theorem length_pyRStrip_mono (y b : List Char) :
    (pyRStrip y).length ≤ (pyRStrip (y ++ b)).length := by
  cases hb : b.reverse.dropWhile pyIsSpace with
  | nil => rw [pyRStrip_append_ws y b hb]
  | cons c t =>
    have : pyRStrip (y ++ b) = y ++ (b.reverse.dropWhile pyIsSpace).reverse := by
      unfold pyRStrip
      rw [List.reverse_append, List.dropWhile_append, hb]
      simp
    rw [this]
    have h1 : (pyRStrip y).length ≤ y.length := length_pyRStrip_le y
    simp only [List.length_append]
    omega

theorem length_pyStrip_mono (a b : List Char) :
    (pyStrip a).length ≤ (pyStrip (a ++ b)).length := by
  cases hl : pyLStrip a with
  | nil =>
    have : pyStrip a = [] := by rw [pyStrip, hl]; rfl
    rw [this]
    exact Nat.zero_le _
  | cons c t =>
    have hne : pyLStrip a ≠ [] := by rw [hl]; exact List.cons_ne_nil c t
    have happ : pyLStrip (a ++ b) = pyLStrip a ++ b := by
      rw [pyLStrip, List.dropWhile_append]
      have : (List.dropWhile pyIsSpace a).isEmpty = false := by
        rw [← pyLStrip]
        simpa [List.isEmpty_iff] using hne
      rw [this]
      rfl
    unfold pyStrip
    rw [happ]
    exact length_pyRStrip_mono (pyLStrip a) b

theorem pyStrip_clean_append (a m b : List Char) (ha : pyStrip a = a) (hb : pyStrip b = b)
    (hna : a ≠ []) (hnb : b ≠ []) : pyStrip (a ++ m ++ b) = a ++ m ++ b := by
  unfold pyStrip
  rw [List.append_assoc, pyLStrip_append a (m ++ b) (pyLStrip_eq_self_of_strip a ha) hna,
    ← List.append_assoc,
    pyRStrip_append (a ++ m) b (pyRStrip_eq_self_of_strip b hb) hnb]

theorem pyStrip_append_nl2 (a : List Char) (ha : pyStrip a = a) (hna : a ≠ []) :
    pyStrip (a ++ nl2) = a := by
  unfold pyStrip
  rw [pyLStrip_append a nl2 (pyLStrip_eq_self_of_strip a ha) hna,
    pyRStrip_append_ws a nl2 nl2_reverse_dropWhile,
    pyRStrip_eq_self_of_strip a ha]

/-! ### Facts about pyJoin -/

theorem pyJoin_cons (sep x : List Char) (l : List (List Char)) (hl : l ≠ []) :
    pyJoin sep (x :: l) = x ++ sep ++ pyJoin sep l := by
  cases l with
  | nil => exact absurd rfl hl
  | cons y t => rfl

theorem pyJoin_append (sep : List Char) (X Y : List (List Char)) (hX : X ≠ []) (hY : Y ≠ []) :
    pyJoin sep (X ++ Y) = pyJoin sep X ++ sep ++ pyJoin sep Y := by
  induction X with
  | nil => exact absurd rfl hX
  | cons x X' ih =>
    cases X' with
    | nil =>
      simp only [List.singleton_append, List.nil_append]
      exact pyJoin_cons sep x Y hY
    | cons x2 X'' =>
      have h1 : pyJoin sep (x :: (x2 :: X'' ++ Y)) = x ++ sep ++ pyJoin sep (x2 :: X'' ++ Y) :=
        pyJoin_cons sep x _ (List.append_ne_nil_of_left_ne_nil (List.cons_ne_nil x2 X'') Y)
      calc pyJoin sep ((x :: x2 :: X'') ++ Y)
          = x ++ sep ++ pyJoin sep (x2 :: X'' ++ Y) := h1
        _ = x ++ sep ++ (pyJoin sep (x2 :: X'') ++ sep ++ pyJoin sep Y) := by
            rw [ih (List.cons_ne_nil x2 X'')]
        _ = pyJoin sep (x :: x2 :: X'') ++ sep ++ pyJoin sep Y := by
            rw [pyJoin]
            simp [List.append_assoc]

theorem pyJoin_glue (sep a b : List Char) (X Z : List (List Char)) :
    pyJoin sep (X ++ (a ++ sep ++ b) :: Z) = pyJoin sep (X ++ a :: b :: Z) := by
  induction X with
  | nil =>
    cases Z with
    | nil =>
      simp only [List.nil_append]
      rw [pyJoin_cons sep a (b :: []) (List.cons_ne_nil b [])]
      rfl
    | cons z Z' =>
      simp only [List.nil_append]
      rw [pyJoin_cons sep (a ++ sep ++ b) (z :: Z') (List.cons_ne_nil z Z'),
        pyJoin_cons sep a (b :: z :: Z') (List.cons_ne_nil b _),
        pyJoin_cons sep b (z :: Z') (List.cons_ne_nil z Z')]
      simp [List.append_assoc]
  | cons x X' ih =>
    have hne1 : X' ++ (a ++ sep ++ b) :: Z ≠ [] :=
      List.append_ne_nil_of_right_ne_nil X' (List.cons_ne_nil _ Z)
    have hne2 : X' ++ a :: b :: Z ≠ [] :=
      List.append_ne_nil_of_right_ne_nil X' (List.cons_ne_nil _ _)
    rw [List.cons_append, pyJoin_cons sep x _ hne1, List.cons_append,
      pyJoin_cons sep x _ hne2, ih]

/-- Joining non-blank clean pieces yields a non-blank clean string. -/
theorem pyJoin_clean (cur : List (List Char)) (hne : cur ≠ [])
    (hc : ∀ p ∈ cur, p ≠ [] ∧ pyStrip p = p) :
    pyJoin nl2 cur ≠ [] ∧ pyStrip (pyJoin nl2 cur) = pyJoin nl2 cur := by
  induction cur with
  | nil => exact absurd rfl hne
  | cons x t ih =>
    cases t with
    | nil => exact ⟨(hc x (List.mem_singleton.mpr rfl)).1, (hc x (List.mem_singleton.mpr rfl)).2⟩
    | cons y t' =>
      have hx := hc x (List.mem_cons_self x _)
      have ht : ∀ p ∈ y :: t', p ≠ [] ∧ pyStrip p = p := fun p hp => hc p (List.mem_cons_of_mem x hp)
      have ihr := ih (List.cons_ne_nil y t') ht
      rw [pyJoin_cons nl2 x (y :: t') (List.cons_ne_nil y t')]
      constructor
      · exact List.append_ne_nil_of_left_ne_nil
          (List.append_ne_nil_of_left_ne_nil hx.1 nl2) _
      · exact pyStrip_clean_append x nl2 (pyJoin nl2 (y :: t')) hx.2 ihr.2 hx.1 ihr.1

/-! ### Facts about the chunking loop -/

theorem chunkLoop_ne_nil (approx : Nat) (ps : List (List Char)) :
    ∀ cur len, cur ≠ [] → chunkLoop approx ps cur len ≠ [] := by
  induction ps with
  | nil =>
    intro cur len hcur
    simp only [chunkLoop]
    rw [if_neg (by simpa [List.isEmpty_iff] using hcur)]
    exact List.cons_ne_nil _ _
  | cons p rest ih =>
    intro cur len hcur
    simp only [chunkLoop]
    by_cases h : len + p.length + 2 ≤ approx
    · rw [if_pos h]
      exact ih _ _ (List.append_ne_nil_of_right_ne_nil cur (List.cons_ne_nil p []))
    · rw [if_neg h]
      exact List.cons_ne_nil _ _

theorem chunkLoop_titles (approx : Nat) (ps : List (List Char)) :
    ∀ cur len s, s ∈ chunkLoop approx ps cur len → s.title = none := by
  induction ps with
  | nil =>
    intro cur len s hs
    simp only [chunkLoop] at hs
    split at hs
    · exact absurd hs (List.not_mem_nil s)
    · rw [List.mem_singleton.mp hs]
  | cons p rest ih =>
    intro cur len s hs
    simp only [chunkLoop] at hs
    split at hs
    · exact ih _ _ s hs
    · rcases List.mem_cons.mp hs with h | h
      · rw [h]
      · exact ih _ _ s h

theorem chunkLoop_props (approx : Nat) (ps : List (List Char)) :
    ∀ cur len, cur ≠ [] → (∀ p ∈ cur, p ≠ [] ∧ pyStrip p = p) →
    (∀ p ∈ ps, p ≠ [] ∧ pyStrip p = p) →
    (∀ s ∈ chunkLoop approx ps cur len, s.body ≠ [] ∧ pyStrip s.body = s.body) ∧
    pyJoin nl2 ((chunkLoop approx ps cur len).map Slide.body) = pyJoin nl2 (cur ++ ps) := by
  induction ps with
  | nil =>
    intro cur len hcur hc _
    have hclean := pyJoin_clean cur hcur hc
    simp only [chunkLoop]
    rw [if_neg (by simpa [List.isEmpty_iff] using hcur)]
    refine ⟨fun s hs => ?_, ?_⟩
    · rw [List.mem_singleton.mp hs]
      exact hclean
    · simp only [List.map_cons, List.map_nil, List.append_nil]
      rfl
  | cons p rest ih =>
    intro cur len hcur hc hp
    have hpp := hp p (List.mem_cons_self p rest)
    have hrest : ∀ q ∈ rest, q ≠ [] ∧ pyStrip q = q := fun q hq => hp q (List.mem_cons_of_mem p hq)
    simp only [chunkLoop]
    by_cases h : len + p.length + 2 ≤ approx
    · rw [if_pos h]
      have hcur' : cur ++ [p] ≠ [] :=
        List.append_ne_nil_of_right_ne_nil cur (List.cons_ne_nil p [])
      have hc' : ∀ q ∈ cur ++ [p], q ≠ [] ∧ pyStrip q = q := by
        intro q hq
        rcases List.mem_append.mp hq with h1 | h1
        · exact hc q h1
        · rw [List.mem_singleton.mp h1]; exact hpp
      have := ih (cur ++ [p]) (len + p.length + 2) hcur' hc' hrest
      refine ⟨this.1, ?_⟩
      rw [this.2, List.append_assoc]
      rfl
    · rw [if_neg h]
      have hclean := pyJoin_clean cur hcur hc
      have hone : ([p] : List (List Char)) ≠ [] := List.cons_ne_nil p []
      have hcone : ∀ q ∈ [p], q ≠ [] ∧ pyStrip q = q := by
        intro q hq
        rw [List.mem_singleton.mp hq]
        exact hpp
      have ihr := ih [p] (p.length + 2) hone hcone hrest
      have hrecne : (chunkLoop approx rest [p] (p.length + 2)).map Slide.body ≠ [] := by
        intro hmap
        exact chunkLoop_ne_nil approx rest [p] (p.length + 2) hone (List.map_eq_nil_iff.mp hmap)
      refine ⟨fun s hs => ?_, ?_⟩
      · rcases List.mem_cons.mp hs with h1 | h1
        · rw [h1]
          exact hclean
        · exact ihr.1 s h1
      · rw [List.map_cons, pyJoin_cons nl2 _ _ hrecne, ihr.2,
          pyJoin_append nl2 cur (p :: rest) hcur (List.cons_ne_nil p rest)]
        rfl

/-! ### Facts about the short-slide merge pass -/

theorem mergeLoop_nil (acc : List Slide) : mergeLoop [] acc = acc.reverse := rfl

theorem mergeLoop_keep (s : Slide) (rest acc : List Slide)
    (h : ¬ (pyStrip s.body).length < MIN_SLIDE_CHARS) :
    mergeLoop (s :: rest) acc = mergeLoop rest (s :: acc) := by
  simp only [mergeLoop]
  rw [if_neg h]

theorem mergeLoop_dropShort (s : Slide) (rest : List Slide) (hemp : pyStrip s.body = []) :
    mergeLoop (s :: rest) [] = mergeLoop rest [] := by
  have hlen : (pyStrip s.body).length < MIN_SLIDE_CHARS := by
    rw [hemp]
    simp [MIN_SLIDE_CHARS]
  simp only [mergeLoop]
  rw [if_pos hlen, if_pos (by simp [List.isEmpty_iff, hemp])]

theorem mergeLoop_firstShort (s : Slide) (rest : List Slide)
    (hshort : (pyStrip s.body).length < MIN_SLIDE_CHARS) (hne : pyStrip s.body ≠ []) :
    mergeLoop (s :: rest) [] = mergeLoop rest [s] := by
  simp only [mergeLoop]
  rw [if_pos hshort, if_neg (by simpa [List.isEmpty_iff] using hne)]

theorem mergeLoop_merge (s : Slide) (rest : List Slide) (prev : Slide) (accTail : List Slide)
    (hshort : (pyStrip s.body).length < MIN_SLIDE_CHARS) (hfal : titleFalsy prev.title = true) :
    mergeLoop (s :: rest) (prev :: accTail) =
      mergeLoop rest (⟨prev.title, pyStrip (prev.body ++ nl2 ++ pyStrip s.body)⟩ :: accTail) := by
  simp only [mergeLoop]
  rw [if_pos hshort, if_pos hfal]

/-- Invariant of the merge pass: with all incoming titles None, every slide of
the output has title None, and every output slide other than the first has a
stripped body of at least MIN_SLIDE_CHARS characters. -/
theorem mergeLoop_inv (slides : List Slide) :
    ∀ acc, (∀ s ∈ slides, s.title = none) → (∀ s ∈ acc, s.title = none) →
    (∀ s ∈ acc.dropLast, MIN_SLIDE_CHARS ≤ (pyStrip s.body).length) →
    (∀ s ∈ mergeLoop slides acc, s.title = none) ∧
    (∀ s ∈ (mergeLoop slides acc).drop 1, MIN_SLIDE_CHARS ≤ (pyStrip s.body).length) := by
  induction slides with
  | nil =>
    intro acc _ hacc hlen
    rw [mergeLoop_nil]
    constructor
    · intro s hs
      exact hacc s (List.mem_reverse.mp hs)
    · intro s hs
      rw [List.drop_one, List.tail_reverse] at hs
      exact hlen s (List.mem_reverse.mp hs)
  | cons s rest ih =>
    intro acc hslides hacc hlen
    have hs0 : s.title = none := hslides s (List.mem_cons_self s rest)
    have hrest : ∀ t ∈ rest, t.title = none := fun t ht => hslides t (List.mem_cons_of_mem s ht)
    by_cases hshort : (pyStrip s.body).length < MIN_SLIDE_CHARS
    · cases acc with
      | nil =>
        by_cases hemp : pyStrip s.body = []
        · rw [mergeLoop_dropShort s rest hemp]
          exact ih [] hrest (by intro t ht; exact absurd ht (List.not_mem_nil t)) (by simp)
        · rw [mergeLoop_firstShort s rest hshort hemp]
          apply ih [s] hrest
          · intro t ht
            rw [List.mem_singleton.mp ht]
            exact hs0
          · simp
      | cons prev accTail =>
        have hprevnone : prev.title = none := hacc prev (List.mem_cons_self prev accTail)
        have hfal : titleFalsy prev.title = true := by rw [hprevnone]; rfl
        rw [mergeLoop_merge s rest prev accTail hshort hfal]
        apply ih _ hrest
        · intro t ht
          rcases List.mem_cons.mp ht with h | h
          · rw [h]
            exact hprevnone
          · exact hacc t (List.mem_cons_of_mem prev h)
        · cases accTail with
          | nil => simp
          | cons a2 t2 =>
            intro t ht
            rw [List.dropLast_cons₂] at ht
            rcases List.mem_cons.mp ht with h | h
            · rw [h]
              show MIN_SLIDE_CHARS ≤
                (pyStrip (pyStrip (prev.body ++ nl2 ++ pyStrip s.body))).length
              rw [pyStrip_idem]
              have hmono := length_pyStrip_mono prev.body (nl2 ++ pyStrip s.body)
              rw [← List.append_assoc] at hmono
              have hprev40 := hlen prev (by
                rw [List.dropLast_cons₂]
                exact List.mem_cons_self prev _)
              omega
            · exact hlen t (by
                rw [List.dropLast_cons₂]
                exact List.mem_cons_of_mem prev h)
    · rw [mergeLoop_keep s rest acc hshort]
      apply ih (s :: acc) hrest
      · intro t ht
        rcases List.mem_cons.mp ht with h | h
        · rw [h]
          exact hs0
        · exact hacc t h
      · cases acc with
        | nil => simp
        | cons a2 t2 =>
          intro t ht
          rw [List.dropLast_cons₂] at ht
          rcases List.mem_cons.mp ht with h | h
          · rw [h]
            omega
          · exact hlen t h

/-- The merge pass neither loses nor reorders body text: joining the bodies of
its output equals joining the accumulated bodies with the non-empty incoming
bodies, provided every incoming body is already stripped. -/
theorem mergeLoop_join (slides : List Slide) :
    ∀ acc, (∀ s ∈ slides, s.title = none ∧ pyStrip s.body = s.body) →
    (∀ s ∈ acc, s.title = none ∧ pyStrip s.body = s.body ∧ s.body ≠ []) →
    pyJoin nl2 ((mergeLoop slides acc).map Slide.body) =
      pyJoin nl2 (acc.reverse.map Slide.body ++
        (slides.map Slide.body).filter (fun b => !b.isEmpty)) := by
  induction slides with
  | nil =>
    intro acc _ _
    rw [mergeLoop_nil]
    simp
  | cons s rest ih =>
    intro acc hslides hacc
    have hs0 := hslides s (List.mem_cons_self s rest)
    have hrest : ∀ t ∈ rest, t.title = none ∧ pyStrip t.body = t.body :=
      fun t ht => hslides t (List.mem_cons_of_mem s ht)
    by_cases hshort : (pyStrip s.body).length < MIN_SLIDE_CHARS
    · by_cases hemp : s.body = []
      · have hstripemp : pyStrip s.body = [] := by rw [hs0.2, hemp]
        cases acc with
        | nil =>
          rw [mergeLoop_dropShort s rest hstripemp]
          rw [ih [] hrest (by intro t ht; exact absurd ht (List.not_mem_nil t))]
          simp [List.filter_cons, hemp]
        | cons prev accTail =>
          have hprev := hacc prev (List.mem_cons_self prev accTail)
          have hfal : titleFalsy prev.title = true := by rw [hprev.1]; rfl
          rw [mergeLoop_merge s rest prev accTail hshort hfal]
          have hbody : pyStrip (prev.body ++ nl2 ++ pyStrip s.body) = prev.body := by
            rw [hstripemp, List.append_nil]
            exact pyStrip_append_nl2 prev.body hprev.2.1 hprev.2.2
          have heta : (⟨prev.title, pyStrip (prev.body ++ nl2 ++ pyStrip s.body)⟩ : Slide)
              = prev := by
            rw [hbody]
          rw [heta, ih (prev :: accTail) hrest hacc]
          simp [List.filter_cons, hemp]
      · have hstrip : pyStrip s.body = s.body := hs0.2
        cases acc with
        | nil =>
          rw [mergeLoop_firstShort s rest hshort (by rw [hstrip]; exact hemp)]
          rw [ih [s] hrest (by
            intro t ht
            rw [List.mem_singleton.mp ht]
            exact ⟨hs0.1, hstrip, hemp⟩)]
          simp [List.filter_cons, hemp]
        | cons prev accTail =>
          have hprev := hacc prev (List.mem_cons_self prev accTail)
          have hfal : titleFalsy prev.title = true := by rw [hprev.1]; rfl
          rw [mergeLoop_merge s rest prev accTail hshort hfal]
          have hbody : pyStrip (prev.body ++ nl2 ++ pyStrip s.body)
              = prev.body ++ nl2 ++ s.body := by
            rw [hstrip]
            exact pyStrip_clean_append prev.body nl2 s.body hprev.2.1 hstrip hprev.2.2 hemp
          have hnew : ∀ t ∈ (⟨prev.title, pyStrip (prev.body ++ nl2 ++ pyStrip s.body)⟩ : Slide)
              :: accTail, t.title = none ∧ pyStrip t.body = t.body ∧ t.body ≠ [] := by
            intro t ht
            rcases List.mem_cons.mp ht with h | h
            · rw [h]
              refine ⟨hprev.1, ?_, ?_⟩
              · show pyStrip (pyStrip (prev.body ++ nl2 ++ pyStrip s.body))
                  = pyStrip (prev.body ++ nl2 ++ pyStrip s.body)
                rw [pyStrip_idem]
              · show pyStrip (prev.body ++ nl2 ++ pyStrip s.body) ≠ []
                rw [hbody]
                exact List.append_ne_nil_of_left_ne_nil
                  (List.append_ne_nil_of_left_ne_nil hprev.2.2 nl2) s.body
            · exact hacc t (List.mem_cons_of_mem prev h)
          rw [ih _ hrest hnew]
          rw [List.reverse_cons, List.reverse_cons, List.map_append, List.map_append,
            List.map_cons, List.map_cons, List.map_nil]
          show pyJoin nl2 ((accTail.reverse.map Slide.body ++
              [pyStrip (prev.body ++ nl2 ++ pyStrip s.body)]) ++
              List.filter (fun b => !b.isEmpty) (rest.map Slide.body))
            = pyJoin nl2 ((accTail.reverse.map Slide.body ++ [prev.body]) ++
              List.filter (fun b => !b.isEmpty) (s.body :: rest.map Slide.body))
          rw [hbody, List.filter_cons]
          have : (!s.body.isEmpty) = true := by simpa [List.isEmpty_iff] using hemp
          rw [this]
          simp only [if_true]
          rw [List.append_assoc, List.singleton_append,
            List.append_assoc (List.map Slide.body accTail.reverse) [prev.body],
            List.singleton_append]
          exact pyJoin_glue nl2 prev.body s.body (accTail.reverse.map Slide.body)
            (List.filter (fun b => !b.isEmpty) (rest.map Slide.body))
    · rw [mergeLoop_keep s rest acc hshort]
      have hnonempty : s.body ≠ [] := by
        intro hcon
        rw [hs0.2] at hshort
        rw [hcon] at hshort
        simp [MIN_SLIDE_CHARS] at hshort
      rw [ih (s :: acc) hrest (by
        intro t ht
        rcases List.mem_cons.mp ht with h | h
        · rw [h]
          exact ⟨hs0.1, hs0.2, hnonempty⟩
        · exact hacc t h)]
      rw [List.reverse_cons, List.map_append, List.map_cons, List.map_nil, List.map_cons,
        List.filter_cons]
      have : (!s.body.isEmpty) = true := by simpa [List.isEmpty_iff] using hnonempty
      rw [this]
      simp only [if_true]
      rw [List.append_assoc, List.singleton_append]

/-! ### Assembling split_text_into_slides -/

theorem parasOf_props (text : List Char) :
    ∀ p ∈ parasOf text, p ≠ [] ∧ pyStrip p = p := by
  intro p hp
  unfold parasOf at hp
  have hfilter := List.of_mem_filter hp
  have hmem := List.mem_of_mem_filter hp
  obtain ⟨q, _, hq⟩ := List.mem_map.mp hmem
  constructor
  · simpa [List.isEmpty_iff] using hfilter
  · rw [← hq]
    exact pyStrip_idem q

/-- The title card always has an empty body, so the merge pass always drops
it: one pass of split_text_into_slides is the merge of the chunks alone. -/
theorem split_go_eq (text : List Char) (title : Option (List Char)) (approx : Nat)
    (htext : text ≠ []) :
    split_go text title approx = mergeLoop (chunkLoop approx (parasOf text) [] 0) [] := by
  unfold split_go
  rw [if_neg (by simpa [List.isEmpty_iff] using htext)]
  cases hfal : titleFalsy title
  · rw [if_neg (by simp)]
    rw [List.singleton_append]
    exact mergeLoop_dropShort ⟨title, []⟩ _ rfl
  · rw [if_pos rfl, List.nil_append]

theorem split_fuel_some (fuel : Nat) :
    ∀ (text : List Char) (title : Option (List Char)) (approx : Nat) (res : List Slide),
    split_text_into_slidesFuel fuel text title approx = some res →
    ∃ a, res = split_go text title a := by
  induction fuel with
  | zero =>
    intro text title approx res h
    exact absurd h (by simp [split_text_into_slidesFuel])
  | succ f ih =>
    intro text title approx res h
    rw [split_text_into_slidesFuel] at h
    by_cases hlen : (split_go text title approx).length > 18
    · rw [if_pos hlen] at h
      exact ih text title 1200 res h
    · rw [if_neg hlen] at h
      exact ⟨approx, (Option.some_inj.mp h).symm⟩

theorem split_fuel_le18 (fuel : Nat) :
    ∀ (text : List Char) (title : Option (List Char)) (approx : Nat) (res : List Slide),
    split_text_into_slidesFuel fuel text title approx = some res → res.length ≤ 18 := by
  induction fuel with
  | zero =>
    intro text title approx res h
    exact absurd h (by simp [split_text_into_slidesFuel])
  | succ f ih =>
    intro text title approx res h
    rw [split_text_into_slidesFuel] at h
    by_cases hlen : (split_go text title approx).length > 18
    · rw [if_pos hlen] at h
      exact ih text title 1200 res h
    · rw [if_neg hlen] at h
      rw [← Option.some_inj.mp h]
      omega

/-- Every slide produced by one pass of split_text_into_slides has title None,
and every such slide other than the first has a stripped body of at least
MIN_SLIDE_CHARS characters. -/
theorem split_go_props (text : List Char) (title : Option (List Char)) (approx : Nat) :
    (∀ s ∈ split_go text title approx, s.title = none) ∧
    (∀ s ∈ (split_go text title approx).drop 1,
      MIN_SLIDE_CHARS ≤ (pyStrip s.body).length) := by
  by_cases htext : text = []
  · rw [htext]
    constructor
    · intro s hs
      exact absurd hs (by simp [split_go])
    · intro s hs
      exact absurd hs (by simp [split_go])
  · rw [split_go_eq text title approx htext]
    exact mergeLoop_inv (chunkLoop approx (parasOf text) [] 0) []
      (fun s hs => chunkLoop_titles approx (parasOf text) [] 0 s hs)
      (fun s hs => absurd hs (List.not_mem_nil s))
      (fun s hs => absurd hs (List.not_mem_nil s))

/-- One pass of split_text_into_slides preserves the joined paragraph text. -/
theorem split_go_join (text : List Char) (title : Option (List Char)) (approx : Nat)
    (hparas : parasOf text ≠ []) :
    pyJoin nl2 ((split_go text title approx).map Slide.body) =
      pyJoin nl2 (parasOf text) := by
  have htext : text ≠ [] := by
    intro hcon
    rw [hcon] at hparas
    exact hparas rfl
  rw [split_go_eq text title approx htext]
  cases hps : parasOf text with
  | nil => exact absurd hps hparas
  | cons p ps =>
    have hprops : ∀ q ∈ parasOf text, q ≠ [] ∧ pyStrip q = q := parasOf_props text
    rw [hps] at hprops
    have hpp := hprops p (List.mem_cons_self p ps)
    have hpps : ∀ q ∈ ps, q ≠ [] ∧ pyStrip q = q :=
      fun q hq => hprops q (List.mem_cons_of_mem p hq)
    have hcone : ∀ q ∈ [p], q ≠ [] ∧ pyStrip q = q := by
      intro q hq
      rw [List.mem_singleton.mp hq]
      exact hpp
    simp only [chunkLoop, List.nil_append]
    by_cases hfit : 0 + p.length + 2 ≤ approx
    · rw [if_pos hfit]
      have hchunk := chunkLoop_props approx ps [p] (0 + p.length + 2)
        (List.cons_ne_nil p []) hcone hpps
      have hmerge := mergeLoop_join (chunkLoop approx ps [p] (0 + p.length + 2)) []
        (fun s hs => ⟨chunkLoop_titles approx ps [p] _ s hs, (hchunk.1 s hs).2⟩)
        (fun s hs => absurd hs (List.not_mem_nil s))
      rw [hmerge]
      have hfilt : List.filter (fun b => !b.isEmpty)
          ((chunkLoop approx ps [p] (0 + p.length + 2)).map Slide.body)
          = (chunkLoop approx ps [p] (0 + p.length + 2)).map Slide.body := by
        rw [List.filter_eq_self]
        intro b hb
        obtain ⟨s, hs, hsb⟩ := List.mem_map.mp hb
        have := (hchunk.1 s hs).1
        rw [← hsb]
        simpa [List.isEmpty_iff] using this
      rw [List.reverse_nil, List.map_nil, List.nil_append, hfilt, hchunk.2]
      rfl
    · rw [if_neg hfit]
      have hchunk := chunkLoop_props approx ps [p] (p.length + 2)
        (List.cons_ne_nil p []) hcone hpps
      rw [mergeLoop_dropShort ⟨none, pyJoin nl2 []⟩ _ rfl]
      have hmerge := mergeLoop_join (chunkLoop approx ps [p] (p.length + 2)) []
        (fun s hs => ⟨chunkLoop_titles approx ps [p] _ s hs, (hchunk.1 s hs).2⟩)
        (fun s hs => absurd hs (List.not_mem_nil s))
      rw [hmerge]
      have hfilt : List.filter (fun b => !b.isEmpty)
          ((chunkLoop approx ps [p] (p.length + 2)).map Slide.body)
          = (chunkLoop approx ps [p] (p.length + 2)).map Slide.body := by
        rw [List.filter_eq_self]
        intro b hb
        obtain ⟨s, hs, hsb⟩ := List.mem_map.mp hb
        have := (hchunk.1 s hs).1
        rw [← hsb]
        simpa [List.isEmpty_iff] using this
      rw [List.reverse_nil, List.map_nil, List.nil_append, hfilt, hchunk.2]
      rfl

/-! ### The diverging input of claim C4 -/

theorem dropWhile_eq_self_of_none {α : Type} (p : α → Bool) (l : List α)
    (h : ∀ c ∈ l, p c = false) : l.dropWhile p = l := by
  cases l with
  | nil => rfl
  | cons c t => simp [List.dropWhile_cons, h c (List.mem_cons_self c t)]

theorem pyStrip_of_no_ws (l : List Char) (h : ∀ c ∈ l, pyIsSpace c = false) :
    pyStrip l = l := by
  unfold pyStrip pyLStrip pyRStrip
  rw [dropWhile_eq_self_of_none pyIsSpace l h,
    dropWhile_eq_self_of_none pyIsSpace l.reverse
      (fun c hc => h c (List.mem_reverse.mp hc)),
    List.reverse_reverse]

theorem pySplit2_no_nl (xs : List Char) :
    ∀ cur rest, (∀ c ∈ xs, c ≠ '\n') →
    pySplit2 (xs ++ rest) cur = pySplit2 rest (cur ++ xs) := by
  induction xs with
  | nil =>
    intro cur rest _
    rw [List.nil_append, List.append_nil]
  | cons c xs' ih =>
    intro cur rest h
    have hc : c ≠ '\n' := h c (List.mem_cons_self c xs')
    have h' : ∀ d ∈ xs', d ≠ '\n' := fun d hd => h d (List.mem_cons_of_mem c hd)
    cases hx : xs' ++ rest with
    | nil =>
      have hxs : xs' = [] := (List.append_eq_nil.mp hx).1
      have hrest : rest = [] := (List.append_eq_nil.mp hx).2
      subst hxs
      subst hrest
      rfl
    | cons y t =>
      have hshape : (c :: xs') ++ rest = c :: y :: t := by rw [List.cons_append, hx]
      rw [hshape]
      simp only [pySplit2]
      rw [if_neg (fun hand => hc hand.1), ← hx, ih (cur ++ [c]) rest h',
        List.append_assoc, List.singleton_append]

theorem pySplit2_join_replicate (para : List Char) (hnl : ∀ c ∈ para, c ≠ '\n') :
    ∀ n, pySplit2 (pyJoin nl2 (List.replicate (n + 1) para)) [] =
      List.replicate (n + 1) para := by
  intro n
  induction n with
  | zero =>
    have h := pySplit2_no_nl para [] [] hnl
    rw [List.append_nil, List.nil_append] at h
    show pySplit2 (pyJoin nl2 [para]) [] = [para]
    rw [show pyJoin nl2 [para] = para from rfl, h]
    rfl
  | succ m ih =>
    have hrep : List.replicate (m + 1 + 1) para = para :: List.replicate (m + 1) para := rfl
    rw [hrep,
      pyJoin_cons nl2 para (List.replicate (m + 1) para)
        (by simp [List.replicate_succ]),
      List.append_assoc,
      pySplit2_no_nl para [] (nl2 ++ pyJoin nl2 (List.replicate (m + 1) para)) hnl,
      List.nil_append]
    show pySplit2 ('\n' :: '\n' :: pyJoin nl2 (List.replicate (m + 1) para)) para =
      para :: List.replicate (m + 1) para
    rw [show pySplit2 ('\n' :: '\n' :: pyJoin nl2 (List.replicate (m + 1) para)) para =
        para :: pySplit2 (pyJoin nl2 (List.replicate (m + 1) para)) [] from rfl, ih]

theorem c4Para_no_nl : ∀ c ∈ c4Para, c ≠ '\n' := by
  intro c hc
  rw [List.eq_of_mem_replicate hc]
  decide

theorem c4Para_no_ws : ∀ c ∈ c4Para, pyIsSpace c = false := by
  intro c hc
  rw [List.eq_of_mem_replicate hc]
  decide

theorem c4Para_len : c4Para.length = 599 := List.length_replicate 599 'a'

theorem c4Para_ne_nil : c4Para ≠ [] := by
  intro h
  have h2 := congrArg List.length h
  rw [c4Para_len] at h2
  exact absurd h2 (by decide)

theorem replicate_ne_nil_of_pos {α : Type} (n : Nat) (a : α) (h : 0 < n) :
    List.replicate n a ≠ [] := by
  intro hcon
  have h2 := congrArg List.length hcon
  rw [List.length_replicate] at h2
  simp at h2
  omega

theorem parasOf_c4Text : parasOf c4Text = List.replicate 19 c4Para := by
  unfold parasOf c4Text
  have h := pySplit2_join_replicate c4Para c4Para_no_nl 18
  rw [show (18 : Nat) + 1 = 19 from rfl] at h
  rw [h, List.map_replicate, pyStrip_of_no_ws c4Para c4Para_no_ws,
    List.filter_eq_self.mpr]
  intro b hb
  rw [List.eq_of_mem_replicate hb]
  simpa [List.isEmpty_iff] using c4Para_ne_nil

theorem chunkLoop_cons_fit (approx : Nat) (p : List Char) (rest cur : List (List Char))
    (curLen : Nat) (h : curLen + p.length + 2 ≤ approx) :
    chunkLoop approx (p :: rest) cur curLen =
      chunkLoop approx rest (cur ++ [p]) (curLen + p.length + 2) := by
  simp only [chunkLoop]
  rw [if_pos h]

theorem chunkLoop_cons_flush (approx : Nat) (p : List Char) (rest cur : List (List Char))
    (curLen : Nat) (h : ¬ curLen + p.length + 2 ≤ approx) :
    chunkLoop approx (p :: rest) cur curLen =
      ⟨none, pyJoin nl2 cur⟩ :: chunkLoop approx rest [p] (p.length + 2) := by
  simp only [chunkLoop]
  rw [if_neg h]

theorem chunkLoop_c4 (approx : Nat) (h2 : approx < 1202) :
    ∀ n curLen, 601 ≤ curLen → chunkLoop approx (List.replicate n c4Para) [c4Para] curLen =
      List.replicate (n + 1) (Slide.mk none c4Para) := by
  intro n
  induction n with
  | zero =>
    intro curLen _
    simp only [List.replicate, chunkLoop]
    rw [if_neg (by simp)]
    rfl
  | succ m ih =>
    intro curLen hcl
    rw [show List.replicate (m + 1) c4Para = c4Para :: List.replicate m c4Para from rfl,
      chunkLoop_cons_flush approx c4Para (List.replicate m c4Para) [c4Para] curLen
        (by rw [c4Para_len]; omega),
      ih (c4Para.length + 2) (by rw [c4Para_len])]
    rfl

theorem mergeLoop_all_long (slides : List Slide) :
    ∀ acc, (∀ s ∈ slides, ¬ (pyStrip s.body).length < MIN_SLIDE_CHARS) →
    mergeLoop slides acc = acc.reverse ++ slides := by
  induction slides with
  | nil =>
    intro acc _
    rw [mergeLoop_nil, List.append_nil]
  | cons s rest ih =>
    intro acc h
    rw [mergeLoop_keep s rest acc (h s (List.mem_cons_self s rest)),
      ih (s :: acc) (fun t ht => h t (List.mem_cons_of_mem s ht)),
      List.reverse_cons, List.append_assoc, List.singleton_append]

theorem split_go_c4 (approx : Nat) (h1 : 601 ≤ approx) (h2 : approx < 1202) :
    split_go c4Text none approx = List.replicate 19 (Slide.mk none c4Para) := by
  have htext : c4Text ≠ [] := by
    unfold c4Text
    rw [show List.replicate 19 c4Para = c4Para :: List.replicate 18 c4Para from rfl,
      pyJoin_cons nl2 c4Para (List.replicate 18 c4Para)
        (replicate_ne_nil_of_pos 18 c4Para (by omega))]
    exact List.append_ne_nil_of_left_ne_nil
      (List.append_ne_nil_of_left_ne_nil c4Para_ne_nil nl2) _
  rw [split_go_eq c4Text none approx htext, parasOf_c4Text,
    show List.replicate 19 c4Para = c4Para :: List.replicate 18 c4Para from rfl,
    chunkLoop_cons_fit approx c4Para (List.replicate 18 c4Para) [] 0
      (by rw [c4Para_len]; omega),
    List.nil_append,
    chunkLoop_c4 approx h2 18 (0 + c4Para.length + 2) (by rw [c4Para_len]),
    mergeLoop_all_long _ [] (by
      intro s hs
      rw [List.eq_of_mem_replicate hs]
      show ¬ (pyStrip c4Para).length < MIN_SLIDE_CHARS
      rw [pyStrip_of_no_ws c4Para c4Para_no_ws, c4Para_len]
      simp [MIN_SLIDE_CHARS]),
    List.reverse_nil, List.nil_append]

theorem c4_fuel_1200 : ∀ fuel, split_text_into_slidesFuel fuel c4Text none 1200 = none := by
  intro fuel
  induction fuel with
  | zero => rfl
  | succ f ih =>
    rw [split_text_into_slidesFuel,
      if_pos (by rw [split_go_c4 1200 (by omega) (by omega), List.length_replicate]; omega)]
    exact ih

/-! ### Claims about split_text_into_slides -/

/-- Claim C1, counterexample: on a non-empty text and a non-None title, the
returned list's first (and only) slide has title None, not the given title —
the title card is dropped by the merge pass because its body is empty. -/
theorem claimC1_counterexample :
    cxText ≠ [] ∧
    split_text_into_slides cxText (some cxTitle) = some [Slide.mk none cxText] ∧
    (Slide.mk none cxText).title ≠ some cxTitle := by
  refine ⟨by decide, by decide, by decide⟩

/-- Claim C1 as amended: the title card inserted at the front never survives
the short-slide merge pass (its body is empty, so it is dropped); every slide
that split_text_into_slides returns has title None, so the first element never
carries the given title. -/
theorem claimC1_amended (fuel : Nat) (text : List Char) (title : Option (List Char))
    (approx : Nat) (res : List Slide)
    (h : split_text_into_slidesFuel fuel text title approx = some res) :
    ∀ s ∈ res, s.title = none := by
  obtain ⟨a, rfl⟩ := split_fuel_some fuel text title approx res h
  exact (split_go_props text title a).1

/-- Witness for the amended claim C1 at a concrete text and title. -/
theorem claimC1_amended_witness : (Slide.mk none c1aText).title = none :=
  claimC1_amended 1000 c1aText (some cxTitle) SLIDE_BODY_CHAR_APPROX
    [Slide.mk none c1aText] (by decide) (Slide.mk none c1aText) (by decide)

/-- Claim C2: every slide returned by split_text_into_slides that has no
title has a body of at least MIN_SLIDE_CHARS characters, except possibly the
first slide of the returned list. -/
theorem claimC2_short_bodies_merged (fuel : Nat) (text : List Char)
    (title : Option (List Char)) (approx : Nat) (res : List Slide)
    (h : split_text_into_slidesFuel fuel text title approx = some res) :
    ∀ s ∈ res.drop 1, s.title = none → MIN_SLIDE_CHARS ≤ s.body.length := by
  intro s hs _
  obtain ⟨a, rfl⟩ := split_fuel_some fuel text title approx res h
  have h40 := (split_go_props text title a).2 s hs
  have hle := length_pyStrip_le s.body
  omega

/-- Witness for claim C2: a two-slide result whose second slide is long. -/
theorem claimC2_witness : MIN_SLIDE_CHARS ≤ (Slide.mk none wParaB).body.length :=
  claimC2_short_bodies_merged 1000 w2Text none SLIDE_BODY_CHAR_APPROX
    [Slide.mk none wParaB, Slide.mk none wParaB] (by decide)
    (Slide.mk none wParaB) (by decide) (by decide)

/-- Claim C4: on nineteen 599-character paragraphs, every chunk pass leaves 19
slides (more than 18) both at approx_chars 700 and at approx_chars 1200, so
split_text_into_slides re-enters itself forever and never returns (in Python,
a RecursionError once the recursion limit is hit). -/
theorem claimC4_divergence : splitDiverges c4Text none := by
  intro fuel
  cases fuel with
  | zero => rfl
  | succ f =>
    rw [show SLIDE_BODY_CHAR_APPROX = 700 from rfl,
      split_text_into_slidesFuel,
      if_pos (by rw [split_go_c4 700 (by omega) (by omega), List.length_replicate]; omega)]
    exact c4_fuel_1200 f

/-- Claim C5: joining the bodies of the returned slides with blank-line
separators reproduces exactly the joined sequence of the text's non-blank,
stripped paragraphs — nothing is lost, duplicated or reordered. -/
theorem claimC5_join_preserved (fuel : Nat) (text : List Char)
    (title : Option (List Char)) (approx : Nat) (res : List Slide)
    (h : split_text_into_slidesFuel fuel text title approx = some res)
    (hparas : parasOf text ≠ []) :
    pyJoin nl2 (res.map Slide.body) = pyJoin nl2 (parasOf text) := by
  obtain ⟨a, rfl⟩ := split_fuel_some fuel text title approx res h
  exact split_go_join text title a hparas

/-- Witness for claim C5 at a concrete one-paragraph text. -/
theorem claimC5_witness :
    pyJoin nl2 (([Slide.mk none c5Text] : List Slide).map Slide.body) =
      pyJoin nl2 (parasOf c5Text) :=
  claimC5_join_preserved 1000 c5Text none SLIDE_BODY_CHAR_APPROX
    [Slide.mk none c5Text] (by decide) (by decide)

/-- Claim C6: any value returned by split_text_into_slides has at most 18
slides, and a pass producing more than 18 slides is replaced by a re-split of
the same text with approx_chars 1200. -/
theorem claimC6_at_most_18 (fuel : Nat) (text : List Char) (title : Option (List Char))
    (approx : Nat) :
    (∀ res, split_text_into_slidesFuel fuel text title approx = some res →
      res.length ≤ 18) ∧
    ((split_go text title approx).length > 18 →
      split_text_into_slidesFuel (fuel + 1) text title approx =
        split_text_into_slidesFuel fuel text title 1200) := by
  constructor
  · intro res h
    exact split_fuel_le18 fuel text title approx res h
  · intro h
    rw [split_text_into_slidesFuel, if_pos h]

/-- Witness for claim C6 at a concrete text. -/
theorem claimC6_witness : ([Slide.mk none c6Text] : List Slide).length ≤ 18 :=
  (claimC6_at_most_18 1000 c6Text none SLIDE_BODY_CHAR_APPROX).1
    [Slide.mk none c6Text] (by decide)

/-! ### Claim about the main-flow data selection -/

/-- Claim C3: get_market_analysis_data is invoked exactly when
get_trending_stock returned None, and when both return None the program
aborts with exit status 1 (sys.exit(1), raised before any video is
produced). -/
theorem claimC3_fallback_selection (trending fallback : Option TopicData) :
    ((mainSelect trending fallback).1 = true ↔ trending = none) ∧
    ((mainSelect trending fallback).2 = MainSelection.abort 1 ↔
      trending = none ∧ fallback = none) := by
  cases trending with
  | some d => simp [mainSelect]
  | none =>
    cases fallback with
    | some d => simp [mainSelect]
    | none => simp [mainSelect]

/-- Witness for claim C3 with both sources returning None. -/
theorem claimC3_witness :
    ((mainSelect none none).1 = true ↔ (none : Option TopicData) = none) ∧
    ((mainSelect none none).2 = MainSelection.abort 1 ↔
      (none : Option TopicData) = none ∧ (none : Option TopicData) = none) :=
  claimC3_fallback_selection none none

/-! ### Claim about the Ken-Burns zoom -/

/-- Claim C10: the zoom scale is 1 at t equal 0, strictly increasing in t on
the slide's duration for every positive duration, and exactly
1 + ZOOM_FACTOR (that is, 1.06) at t equal the duration. -/
theorem claimC10_zoom_scale (d : ℚ) (hd : 0 < d) :
    zoomScale d 0 = 1 ∧
    (∀ t₁ t₂, 0 ≤ t₁ → t₁ < t₂ → t₂ ≤ d → zoomScale d t₁ < zoomScale d t₂) ∧
    zoomScale d d = 1 + ZOOM_FACTOR ∧ (1 + ZOOM_FACTOR : ℚ) = 106 / 100 := by
  refine ⟨?_, ?_, ?_, by norm_num [ZOOM_FACTOR]⟩
  · simp [zoomScale]
  · intro t₁ t₂ _ h12 _
    unfold zoomScale
    have hdiv : t₁ / d < t₂ / d := div_lt_div_of_pos_right h12 hd
    have hmul : ZOOM_FACTOR * (t₁ / d) < ZOOM_FACTOR * (t₂ / d) :=
      mul_lt_mul_of_pos_left hdiv (by norm_num [ZOOM_FACTOR])
    linarith
  · unfold zoomScale
    rw [div_self (ne_of_gt hd), mul_one]

/-- Witness for claim C10 at duration 2. -/
theorem claimC10_witness :
    zoomScale 2 0 = 1 ∧ zoomScale 2 2 = 1 + ZOOM_FACTOR ∧ zoomScale 2 0 < zoomScale 2 1 := by
  have h := claimC10_zoom_scale 2 (by norm_num)
  exact ⟨h.1, h.2.2.1, h.2.1 0 1 (by norm_num) (by norm_num) (by norm_num)⟩

/-! ### Claim about get_market_analysis_data -/

/-- Claim C7: the trend is labelled bullish exactly when the latest close
exceeds the previous one and bearish otherwise (a zero change included); the
reported percentage move is the absolute value of the 2-decimal rounding of
(latest - previous) / previous times 100, taken in float64 semantics; and the
function returns None exactly when the fetch raised or fewer than 2 rows of
history are present. A zero previous close raises no exception (numpy float64
division yields an infinity or NaN with a RuntimeWarning), so a dict is still
returned in that case, with an infinite reported move when the latest close
is non-zero. -/
theorem claimC7_market_analysis (target : IndexInfo) (closes : List ℚ) :
    get_market_analysis_data target none = none ∧
    (closes.length < 2 → get_market_analysis_data target (some closes) = none) ∧
    (2 ≤ closes.length → get_market_analysis_data target (some closes) ≠ none) ∧
    (2 ≤ closes.length →
      ∀ r, get_market_analysis_data target (some closes) = some r →
        (r.trend = bullish ↔
          closes.getD (closes.length - 2) 0 < closes.getD (closes.length - 1) 0) ∧
        (r.trend = bearish ↔
          closes.getD (closes.length - 1) 0 ≤ closes.getD (closes.length - 2) 0) ∧
        r.pct = pyAbs (pyRound2 (pyMul100 (pyDivFloat
          (closes.getD (closes.length - 1) 0 - closes.getD (closes.length - 2) 0)
          (closes.getD (closes.length - 2) 0)))) ∧
        (closes.getD (closes.length - 2) 0 ≠ 0 →
          r.pct = PyFloat.finite |round2 ((closes.getD (closes.length - 1) 0 -
            closes.getD (closes.length - 2) 0) /
            closes.getD (closes.length - 2) 0 * 100)|) ∧
        (closes.getD (closes.length - 2) 0 = 0 → closes.getD (closes.length - 1) 0 ≠ 0 →
          r.pct = PyFloat.posInf)) := by
  have hbb : bullish ≠ bearish := by decide
  refine ⟨rfl, ?_, ?_, ?_⟩
  · intro h
    simp only [get_market_analysis_data]
    rw [if_pos h]
  · intro h2
    simp only [get_market_analysis_data]
    rw [if_neg (by omega)]
    exact Option.some_ne_none _
  · intro h2 r hr
    simp only [get_market_analysis_data] at hr
    rw [if_neg (by omega)] at hr
    have heq := Option.some_inj.mp hr
    rw [← heq]
    have hpct : ∀ a b : ℚ, b ≠ 0 →
        pyAbs (pyRound2 (pyMul100 (pyDivFloat a b))) =
          PyFloat.finite |round2 (a / b * 100)| := by
      intro a b hb
      rw [pyDivFloat, if_neg hb]
      rfl
    have hinf : ∀ a b : ℚ, b = 0 → a - b ≠ 0 →
        pyAbs (pyRound2 (pyMul100 (pyDivFloat (a - b) b))) = PyFloat.posInf := by
      intro a b hb hab
      rw [pyDivFloat, if_pos hb]
      rcases lt_or_gt_of_ne hab with h | h
      · rw [if_neg (by linarith), if_pos h]
        rfl
      · rw [if_pos h]
        rfl
    by_cases hc : closes.getD (closes.length - 1) 0 - closes.getD (closes.length - 2) 0 > 0
    · have hlt : closes.getD (closes.length - 2) 0 < closes.getD (closes.length - 1) 0 :=
        sub_pos.mp hc
      refine ⟨?_, ?_, rfl, ?_, ?_⟩
      · show (if closes.getD (closes.length - 1) 0 - closes.getD (closes.length - 2) 0 > 0
            then bullish else bearish) = bullish ↔ _
        rw [if_pos hc]
        exact ⟨fun _ => hlt, fun _ => rfl⟩
      · show (if closes.getD (closes.length - 1) 0 - closes.getD (closes.length - 2) 0 > 0
            then bullish else bearish) = bearish ↔ _
        rw [if_pos hc]
        exact ⟨fun hcon => absurd hcon hbb, fun hcon => absurd hlt (not_lt.mpr hcon)⟩
      · intro hprev
        exact hpct _ _ hprev
      · intro hz hcur
        exact hinf _ _ hz (by rw [hz, sub_zero]; exact hcur)
    · have hle : closes.getD (closes.length - 1) 0 ≤ closes.getD (closes.length - 2) 0 := by
        have := not_lt.mp hc
        linarith [sub_nonpos.mp this]
      refine ⟨?_, ?_, rfl, ?_, ?_⟩
      · show (if closes.getD (closes.length - 1) 0 - closes.getD (closes.length - 2) 0 > 0
            then bullish else bearish) = bullish ↔ _
        rw [if_neg hc]
        exact ⟨fun hcon => absurd hcon.symm hbb, fun hcon => absurd hcon (not_lt.mpr hle)⟩
      · show (if closes.getD (closes.length - 1) 0 - closes.getD (closes.length - 2) 0 > 0
            then bullish else bearish) = bearish ↔ _
        rw [if_neg hc]
        exact ⟨fun _ => hle, fun _ => rfl⟩
      · intro hprev
        exact hpct _ _ hprev
      · intro hz hcur
        exact hinf _ _ hz (by rw [hz, sub_zero]; exact hcur)

/-- Witness for claim C7 on the history [100, 103]: a 3 percent bullish move
and a Some result, plus the infinite reported move on the history [0, 5]
whose previous close is zero. -/
theorem claimC7_witness :
    (100 : ℚ) < 103 ∧
    get_market_analysis_data (IndexInfo.mk ("^NSEI".toList) ("Nifty 50".toList))
      (some [100, 103]) ≠ none ∧
    (MarketAnalysis.mk ("Nifty 50".toList) bullish PyFloat.posInf 5).pct =
      PyFloat.posInf := by
  have h := claimC7_market_analysis
    (IndexInfo.mk ("^NSEI".toList) ("Nifty 50".toList)) [100, 103]
  have h0 := claimC7_market_analysis
    (IndexInfo.mk ("^NSEI".toList) ("Nifty 50".toList)) [0, 5]
  have hr : get_market_analysis_data (IndexInfo.mk ("^NSEI".toList) ("Nifty 50".toList))
      (some [100, 103]) =
      some (MarketAnalysis.mk ("Nifty 50".toList) bullish (PyFloat.finite 3) 103) := by
    simp only [get_market_analysis_data]
    norm_num [List.getD, pyDivFloat, pyMul100, pyRound2, pyAbs, round2, roundHalfEven]
  have hr0 : get_market_analysis_data (IndexInfo.mk ("^NSEI".toList) ("Nifty 50".toList))
      (some [0, 5]) =
      some (MarketAnalysis.mk ("Nifty 50".toList) bullish PyFloat.posInf 5) := by
    simp only [get_market_analysis_data]
    norm_num [List.getD, pyDivFloat, pyMul100, pyRound2, pyAbs]
  refine ⟨?_, ?_, ?_⟩
  · exact (h.2.2.2 (by decide)
      (MarketAnalysis.mk ("Nifty 50".toList) bullish (PyFloat.finite 3) 103) hr).1.mp rfl
  · exact h.2.2.1 (by decide)
  · exact (h0.2.2.2 (by decide)
      (MarketAnalysis.mk ("Nifty 50".toList) bullish PyFloat.posInf 5) hr0).2.2.2.2
      (by norm_num [List.getD]) (by norm_num [List.getD])

/-! ### Claim about synthesize_text_to_file -/

/-- Claim C8: every text handed to speech synthesis is the translator's
output, never the original text; the function returns True exactly when both
the translation and the audio save succeed, and it returns a Bool in every
case (each exception is caught and becomes a False result). -/
theorem claimC8_tts (translate : List Char → Except PyErr (List Char))
    (ttsSave : List Char → Except PyErr Unit) (text : List Char) :
    (∀ s ∈ (synthesize_text_to_file translate ttsSave text).2,
      translate text = Except.ok s) ∧
    ((synthesize_text_to_file translate ttsSave text).1 = true ↔
      ∃ telugu, translate text = Except.ok telugu ∧ ttsSave telugu = Except.ok ()) := by
  cases htr : translate text with
  | error e => simp [synthesize_text_to_file, htr]
  | ok telugu =>
    cases hsv : ttsSave telugu with
    | error e => simp [synthesize_text_to_file, htr, hsv]
    | ok u => simp [synthesize_text_to_file, htr, hsv]

/-- Witness for claim C8 with a translator that prefixes a marker character
and an always-succeeding synthesizer. -/
theorem claimC8_witness :
    (∀ s ∈ (synthesize_text_to_file (fun t => Except.ok ('z' :: t))
        (fun _ => Except.ok ()) cxText).2,
      (fun t => (Except.ok ('z' :: t) : Except PyErr (List Char))) cxText = Except.ok s) ∧
    ((synthesize_text_to_file (fun t => Except.ok ('z' :: t))
        (fun _ => Except.ok ()) cxText).1 = true ↔
      ∃ telugu, (fun t => (Except.ok ('z' :: t) : Except PyErr (List Char))) cxText =
        Except.ok telugu ∧
        (fun _ => (Except.ok () : Except PyErr Unit)) telugu = Except.ok ()) :=
  claimC8_tts (fun t => Except.ok ('z' :: t)) (fun _ => Except.ok ()) cxText

/-! ### Claim about download_background -/

theorem dlLoop_ok_fst (o : DlOracles) :
    ∀ urls res, dlLoop o urls = Except.ok res → res.1 = true := by
  intro urls
  induction urls with
  | nil =>
    intro res h
    cases hs : o.saveSolid with
    | ok u =>
      simp only [dlLoop, hs, Except.ok.injEq] at h
      rw [← h]
    | error e =>
      simp only [dlLoop, hs] at h
      exact absurd h (by simp)
  | cons url rest ih =>
    intro res h
    cases hf : o.fetch url with
    | error e =>
      simp only [dlLoop, hf] at h
      exact ih res h
    | ok r =>
      simp only [dlLoop, hf] at h
      by_cases hg : goodResp r = true
      · rw [if_pos hg] at h
        cases hw : o.writeFile r.content with
        | ok u =>
          simp only [hw, Except.ok.injEq] at h
          rw [← h]
        | error e =>
          simp only [hw] at h
          exact ih res h
      · rw [if_neg hg] at h
        exact ih res h

theorem dlLoop_all_fail (o : DlOracles) :
    ∀ urls, (∀ u ∈ urls, attemptSucceeds o u = false) → dlLoop o urls = dlLoop o [] := by
  intro urls
  induction urls with
  | nil => intro _; rfl
  | cons url rest ih =>
    intro h
    cases hf : o.fetch url with
    | error e =>
      simp only [dlLoop, hf]
      exact ih (fun u hu => h u (List.mem_cons_of_mem url hu))
    | ok r =>
      by_cases hg : goodResp r = true
      · cases hw : o.writeFile r.content with
        | ok u =>
          have hcon := h url (List.mem_cons_self url rest)
          simp [attemptSucceeds, hf, hg, hw] at hcon
        | error e =>
          show (match o.fetch url with
            | Except.error _ => dlLoop o rest
            | Except.ok r =>
              if goodResp r then
                match o.writeFile r.content with
                | Except.ok _ => Except.ok (true, BgWritten.fromUrl r.content)
                | Except.error _ => dlLoop o rest
              else dlLoop o rest) = dlLoop o []
          rw [hf]
          simp only []
          rw [if_pos hg, hw]
          exact ih (fun u hu => h u (List.mem_cons_of_mem url hu))
      · simp only [dlLoop, hf]
        rw [if_neg hg]
        exact ih (fun u hu => h u (List.mem_cons_of_mem url hu))

theorem dlLoop_first_success (o : DlOracles) :
    ∀ pre url rest r, (∀ u ∈ pre, attemptSucceeds o u = false) →
    o.fetch url = Except.ok r → goodResp r = true →
    o.writeFile r.content = Except.ok () →
    dlLoop o (pre ++ url :: rest) = Except.ok (true, BgWritten.fromUrl r.content) := by
  intro pre
  induction pre with
  | nil =>
    intro url rest r _ hf hg hw
    rw [List.nil_append]
    simp only [dlLoop, hf]
    rw [if_pos hg]
    simp only [hw]
  | cons u0 pre' ih =>
    intro url rest r hbad hf hg hw
    rw [List.cons_append]
    cases hf0 : o.fetch u0 with
    | error e =>
      simp only [dlLoop, hf0]
      exact ih url rest r (fun u hu => hbad u (List.mem_cons_of_mem u0 hu)) hf hg hw
    | ok r0 =>
      by_cases hg0 : goodResp r0 = true
      · cases hw0 : o.writeFile r0.content with
        | ok u =>
          have hcon := hbad u0 (List.mem_cons_self u0 pre')
          simp [attemptSucceeds, hf0, hg0, hw0] at hcon
        | error e =>
          simp only [dlLoop, hf0]
          rw [if_pos hg0]
          simp only [hw0]
          exact ih url rest r (fun u hu => hbad u (List.mem_cons_of_mem u0 hu)) hf hg hw
      · simp only [dlLoop, hf0]
        rw [if_neg hg0]
        exact ih url rest r (fun u hu => hbad u (List.mem_cons_of_mem u0 hu)) hf hg hw

/-- Claim C9, counterexample: the claim that download_background always
returns True and never raises, writing the first good response's bytes, is
false. First input: every request raises and the final img.save (outside any
try/except) raises, so the exception propagates instead of True being
returned. Second input: every response has status 200 and an image
Content-Type, but each in-loop file write raises (caught, next URL tried), so
the solid fallback image is written rather than the bytes of the first good
response. -/
theorem claimC9_counterexample :
    download_background (DlOracles.mk (fun _ => Except.error ("connection error".toList))
        (fun _ => Except.ok ()) (Except.error ("disk full".toList))) =
      Except.error ("disk full".toList) ∧
    download_background (DlOracles.mk
        (fun _ => Except.ok (HttpResponse.mk 200 ("image/jpeg".toList) [1, 2, 3]))
        (fun _ => Except.error ("disk full".toList)) (Except.ok ())) =
      Except.ok (true, BgWritten.solid RESOLUTION 12 12 12) :=
  ⟨rfl, rfl⟩

/-- Claim C9 as amended: whenever download_background returns, it returns
True; the URLs of FALLBACK_IMAGES are tried in their listed order, and the
bytes written are those of the first response with status 200 and an image
Content-Type whose file write also succeeds (a caught write failure is
treated like a failed request and the next URL is tried); when every attempt
fails, the solid dark image of the configured resolution is saved and True
returned — unless that final img.save itself raises, in which case the
exception propagates uncaught. -/
theorem claimC9_amended (o : DlOracles) :
    (∀ res, download_background o = Except.ok res → res.1 = true) ∧
    ((∀ u ∈ FALLBACK_IMAGES, attemptSucceeds o u = false) →
      o.saveSolid = Except.ok () →
      download_background o = Except.ok (true, BgWritten.solid RESOLUTION 12 12 12)) ∧
    ((∀ u ∈ FALLBACK_IMAGES, attemptSucceeds o u = false) →
      ∀ e, o.saveSolid = Except.error e → download_background o = Except.error e) ∧
    (∀ pre url rest r, FALLBACK_IMAGES = pre ++ url :: rest →
      (∀ u ∈ pre, attemptSucceeds o u = false) →
      o.fetch url = Except.ok r → goodResp r = true →
      o.writeFile r.content = Except.ok () →
      download_background o = Except.ok (true, BgWritten.fromUrl r.content)) := by
  refine ⟨fun res h => dlLoop_ok_fst o FALLBACK_IMAGES res h, ?_, ?_, ?_⟩
  · intro hfail hsave
    unfold download_background
    rw [dlLoop_all_fail o FALLBACK_IMAGES hfail]
    simp only [dlLoop, hsave]
  · intro hfail e hsave
    unfold download_background
    rw [dlLoop_all_fail o FALLBACK_IMAGES hfail]
    simp only [dlLoop, hsave]
  · intro pre url rest r hsplit hbad hf hg hw
    unfold download_background
    rw [hsplit, dlLoop_first_success o pre url rest r hbad hf hg hw]

/-- Witness for the amended claim C9 with a fetch whose every request raises
and a succeeding fallback save: the solid dark image is written and True is
returned. -/
theorem claimC9_witness :
    download_background (DlOracles.mk (fun _ => Except.error ("connection error".toList))
        (fun _ => Except.ok ()) (Except.ok ())) =
      Except.ok (true, BgWritten.solid RESOLUTION 12 12 12) :=
  (claimC9_amended (DlOracles.mk (fun _ => Except.error ("connection error".toList))
      (fun _ => Except.ok ()) (Except.ok ()))).2.1
    (fun u _ => rfl) rfl
